import Mathlib

/-!
A verification development for the multieditor action engine
(`inspirehep/modules/multieditor/actions.py`).

The engine rewrites JSON-like record trees in place.  We model Python values
with the inductive type `Val`; Python dicts become insertion-ordered
association lists; Python exceptions become `Except PyErr`.  Every recursive
procedure of the source is embedded as a fuel-indexed structurally recursive
function (fuel exhaustion is the distinguished outcome `PyErr.fuel`, never
produced when the fuel exceeds the recursion depth of the corresponding
Python call), so that all definitions evaluate by kernel reduction.
-/

namespace Inspire

/-- Python-style error outcomes of the embedded code.  `fuel` is the
fuel-exhaustion marker of the embedding itself; `unsupported` marks regex
patterns outside the escaped-literal fragment, which `re.escape` never
produces. -/
inductive PyErr where
  | attrError
  | keyError
  | typeError
  | indexError
  | fuel
  | unsupported
deriving DecidableEq

/-- A Python value: `None`, a string, a bool, an int, a list, or a dict
(modelled as an insertion-ordered association list). -/
inductive Val where
  | vnone : Val
  | vstr : String → Val
  | vbool : Bool → Val
  | vint : Int → Val
  | varr : List Val → Val
  | vobj : List (String × Val) → Val

/-- Python truthiness: `None`, `""`, `False`, `0`, `[]` and `{}` are falsy. -/
def Val.truthy : Val → Bool
  | .vnone => false
  | .vstr s => s != ""
  | .vbool b => b
  | .vint n => n != 0
  | .varr l => !l.isEmpty
  | .vobj d => !d.isEmpty

/-- Dict lookup, `d.get(key)` on a present key / `d[key]` (first matching
entry; keys of reachable dicts are unique). -/
def dget : List (String × Val) → String → Option Val
  | [], _ => none
  | (k, v) :: rest, key => if k == key then some v else dget rest key

/-- Dict assignment `d[key] = v`: replace in place, else append. -/
def dset : List (String × Val) → String → Val → List (String × Val)
  | [], key, v => [(key, v)]
  | (k, w) :: rest, key, v =>
    if k == key then (k, v) :: rest else (k, w) :: dset rest key v

/-- Dict deletion `del d[key]`. -/
def ddel : List (String × Val) → String → List (String × Val)
  | [], _ => []
  | (k, w) :: rest, key => if k == key then rest else (k, w) :: ddel rest key

/-- Python `d.update(other)`: assign every entry of `other` into `d`. -/
def dictUpdate (d : List (String × Val)) : List (String × Val) → List (String × Val)
  | [] => d
  | (k, v) :: rest => dictUpdate (dset d k v) rest

/-- Dict indexing `v[k]`: `KeyError` on a missing key, `TypeError` when `v`
is not a dict. -/
def pyIndex (v : Val) (k : String) : Except PyErr Val :=
  match v with
  | .vobj d =>
    match dget d k with
    | some x => .ok x
    | none => .error .keyError
  | _ => .error .typeError

/-- Python equality `a == b`, with the bool/int cross equalities
(`True == 1`, `False == 0`), elementwise list equality, and key-based
(order-insensitive) dict equality.  The fuel bounds the nesting depth. -/
def pyEqF : Nat → Val → Val → Bool
  | 0, _, _ => false
  | _ + 1, .vnone, .vnone => true
  | _ + 1, .vstr a, .vstr b => a == b
  | _ + 1, .vbool a, .vbool b => a == b
  | _ + 1, .vint a, .vint b => a == b
  | _ + 1, .vbool a, .vint b => (if a then (1 : Int) else 0) == b
  | _ + 1, .vint a, .vbool b => a == (if b then (1 : Int) else 0)
  | fuel + 1, .varr a, .varr b =>
      a.length == b.length && (a.zip b).all (fun p => pyEqF fuel p.1 p.2)
  | fuel + 1, .vobj a, .vobj b =>
      a.length == b.length && a.all (fun kv =>
        match dget b kv.1 with
        | some w => pyEqF fuel kv.2 w
        | none => false)
  | _ + 1, _, _ => false

/-- Whether `n` occurs at the head of `h`. -/
def listLeads : List Char → List Char → Bool
  | [], _ => true
  | _ :: _, [] => false
  | c :: cs, d :: ds => c == d && listLeads cs ds

/-- Whether `n` occurs contiguously anywhere in `h` (Python substring
membership `n in h`; the empty needle always occurs). -/
def subList (n h : List Char) : Bool :=
  listLeads n h ||
    match h with
    | [] => false
    | _ :: t => subList n t

/-- Python membership `c in x`: substring test on strings, elementwise
equality on lists, key membership on dicts, `TypeError` otherwise. -/
def pyContainsE (fuel : Nat) (c x : Val) : Except PyErr Bool :=
  match x with
  | .vstr h =>
    match c with
    | .vstr s => .ok (subList s.data h.data)
    | _ => .error .typeError
  | .varr l => .ok (l.any (fun it => pyEqF fuel c it))
  | .vobj d =>
    match c with
    | .vstr k => .ok (d.any (fun kv => kv.1 == k))
    | .varr _ => .error .typeError
    | .vobj _ => .error .typeError
    | _ => .ok false
  | _ => .error .typeError

/-- The ASCII alphanumerics and underscore, the characters Python 2.7's
`re.escape` leaves unescaped. -/
def isAlnumUnd (c : Char) : Bool :=
  (c ≥ 'a' && c ≤ 'z') || (c ≥ 'A' && c ≤ 'Z') || (c ≥ '0' && c ≤ '9') || c == '_'

/-- The regex metacharacters (including the backslash). -/
def isMeta (c : Char) : Bool :=
  c == '.' || c == '^' || c == '$' || c == '*' || c == '+' || c == '?' ||
  c == Char.ofNat 123 || c == Char.ofNat 125 || c == '[' || c == ']' ||
  c == '|' || c == '(' || c == ')' || c == '\\'

/-- Python 2.7 `re.escape` on one character: alphanumerics and underscore
pass through, the null character becomes the octal escape, every other
character is backslash-prefixed. -/
def escapeChar (c : Char) : List Char :=
  if isAlnumUnd c then [c]
  else if c = Char.ofNat 0 then ['\\', '0', '0', '0']
  else ['\\', c]

/-- Python 2.7 `re.escape` over a character list. -/
def escapeList : List Char → List Char
  | [] => []
  | c :: cs => escapeChar c ++ escapeList cs

/-- Python 2.7 `re.escape` on strings. -/
def reEscape (s : String) : String := String.mk (escapeList s.data)

/-- Reads a regex pattern from the escaped-literal fragment back into the
literal character list it matches: backslash escapes denote themselves (the
octal escape denotes the null character), unescaped metacharacters and
escapes of alphanumerics fall outside the fragment.  `re.escape` images
always parse (see `parseLit_escapeList`). -/
def parseLit : List Char → Option (List Char)
  | [] => some []
  | c :: rest =>
    if c = '\\' then
      match rest with
      | [] => none
      | d :: rest2 =>
        if d = '0' then
          match rest2 with
          | e :: g :: rest3 =>
            if e = '0' then
              if g = '0' then (parseLit rest3).map (Char.ofNat 0 :: ·) else none
            else none
          | _ => none
        else if isAlnumUnd d then none
        else (parseLit rest2).map (d :: ·)
    else if isAlnumUnd c then (parseLit rest).map (c :: ·)
    else if isMeta c then none
    else (parseLit rest).map (c :: ·)

/-- Python `re.search(pat, hay)` restricted to the escaped-literal pattern
fragment, where searching is substring occurrence. -/
def reSearch (pat hay : String) : Except PyErr Bool :=
  match parseLit pat.data with
  | some lit => .ok (subList lit hay.data)
  | none => .error .unsupported

/-- The source's `re.search(re.escape(value_to_check), x)`: `TypeError`
unless both the check value and the subject are strings. -/
def reSearchVal (vtc x : Val) : Except PyErr Bool :=
  match vtc with
  | .vstr s =>
    match x with
    | .vstr h => reSearch (reEscape s) h
    | _ => .error .typeError
  | _ => .error .typeError

/-- The leaf predicate chain of `check_value` (actions.py lines 216-223 and
229-237) applied to one value `x`: equality, membership, or escaped-regex
search according to `match_type`; any other match type yields `False`. -/
def leafMatch (fuel : Nat) (mt : String) (vtc x : Val) : Except PyErr Bool :=
  if mt == "equal" then .ok (pyEqF fuel x vtc)
  else if mt == "contains" then pyContainsE fuel vtc x
  else if mt == "regex" then reSearchVal vtc x
  else .ok false

/-- The existential loop of `check_value` over an array: run `f` on each
element in order, stopping at the first `True` or the first raised error
(later elements are then not evaluated); an exhausted loop answers `False`. -/
def boolScan (f : Val → Except PyErr Bool) : List Val → Except PyErr Bool
  | [] => .ok false
  | x :: xs =>
    match f x with
    | .ok false => boolScan f xs
    | o => o

/-- `check_value(record, match_type, keys, value_to_check, position)`
(actions.py lines 207-241).  A missing or falsy value at the current key
answers `match_type == 'missing'`; an array fans out existentially; a
non-dict record raises (`record.get` on a non-dict is an `AttributeError`). -/
def check_value : Nat → Val → String → List String → Val → Nat → Except PyErr Bool
  | 0, _, _, _, _, _ => .error .fuel
  | fuel + 1, record, mt, keys, vtc, pos =>
    match keys[pos]? with
    | none => .error .indexError
    | some key =>
      match record with
      | .vobj d =>
        match dget d key with
        | none => .ok (mt == "missing")
        | some temp =>
          if !temp.truthy then .ok (mt == "missing")
          else
            match temp with
            | .varr l =>
              if pos + 1 == keys.length then boolScan (leafMatch fuel mt vtc) l
              else boolScan (fun x => check_value fuel x mt keys vtc (pos + 1)) l
            | _ =>
              if pos + 1 == keys.length then leafMatch fuel mt vtc temp
              else check_value fuel temp mt keys vtc (pos + 1)
      | _ => .error .attrError

/-- A parsed condition: path, comparison value (the source defaults a
missing value to `''` at the call site; conditions built by `get_actions`
always carry one), and match type. -/
structure Condition where
  keys : List String
  value : Val
  match_type : String

/-- The state of a Python `Action` object: path keys, payload value, match
type, check value and conditions, with the constructor's `None` defaults. -/
structure Action where
  keys : List String
  value : Val := .vnone
  match_type : String := ""
  value_to_check : Val := .vnone
  conditions : List Condition := []

/-- The trigger test of `progress_keys` (actions.py lines 49-52): the
condition is evaluated at this depth when its path is long enough and either
the condition's key first diverges from the action's key here, or the
condition's path terminates here on the same key. -/
def condTrigger (actKeys : List String) (pos : Nat) (key : String)
    (ck : List String) : Bool :=
  decide (pos < ck.length) &&
    ((key != ck.getD pos "" &&
        (pos == 0 || actKeys.getD (pos - 1) "" == ck.getD (pos - 1) "")) ||
      (key == ck.getD pos "" && pos == ck.length - 1))

/-- The condition loop of `progress_keys` (actions.py lines 47-59): every
triggered condition is evaluated (the loop does not break on failure),
`checked` counts trigger events, and `failed` records any false check. -/
def condLoop (fuel : Nat) (record : Val) (actKeys : List String) (pos : Nat)
    (key : String) : List Condition → Nat → Bool → Except PyErr (Nat × Bool)
  | [], checked, failed => .ok (checked, failed)
  | c :: rest, checked, failed =>
    if condTrigger actKeys pos key c.keys then
      match check_value fuel record c.match_type c.keys c.value pos with
      | .error e => .error e
      | .ok b => condLoop fuel record actKeys pos key rest (checked + 1) (failed || !b)
    else condLoop fuel record actKeys pos key rest checked failed

/-- Python equality of a value against a string literal (`v == "s"`):
true exactly for the equal string. -/
def isStrV (v : Val) (s : String) : Bool :=
  match v with
  | .vstr x => x == s
  | _ => false

/-- The schema-descent block of `progress_keys` (actions.py lines 41-46):
a falsy schema yields the empty dict, an object or array schema descends
into the property named `key`, any other type yields the empty dict. -/
def schemaStep (schema : Val) (key : String) : Except PyErr Val :=
  if schema.truthy then
    match pyIndex schema "type" with
    | .error e => .error e
    | .ok t =>
      if isStrV t "object" then
        match pyIndex schema "properties" with
        | .error e => .error e
        | .ok props => pyIndex props key
      else if isStrV t "array" then
        match pyIndex schema "items" with
        | .error e => .error e
        | .ok items =>
          match pyIndex items "properties" with
          | .error e => .error e
          | .ok props => pyIndex props key
      else .ok (.vobj [])
  else .ok (.vobj [])

/-- `Action.progress_keys(record, schema, position, checked)` (actions.py
lines 38-60): returns the sub-schema, the updated check counter, the current
key and the condition-failed flag. -/
def progress_keys (fuel : Nat) (self : Action) (record schema : Val)
    (pos checked : Nat) : Except PyErr (Val × Nat × String × Bool) :=
  match self.keys[pos]? with
  | none => .error .indexError
  | some key =>
    match schemaStep schema key with
    | .error e => .error e
    | .ok ns =>
      match condLoop fuel record self.keys pos key self.conditions checked false with
      | .error e => .error e
      | .ok (checked2, failed) => .ok (ns, checked2, key, failed)

/-- The initial schema descent of `create_schema_record` (actions.py lines
182-186): step from the root schema node to its properties dict (through
`items` for arrays); any other declared type leaves the node itself. -/
def schemaTopProps (schema : Val) : Except PyErr Val :=
  match pyIndex schema "type" with
  | .error e => .error e
  | .ok t =>
    if isStrV t "array" then
      match pyIndex schema "items" with
      | .error e => .error e
      | .ok items => pyIndex items "properties"
    else if isStrV t "object" then pyIndex schema "properties"
    else .ok schema

/-- The loop of `create_schema_record` (actions.py lines 187-203), written
as a recursion producing the contents of the dict under construction.
`len1` is the source's `len(path) == 1` test, and `lastKey` the source's
trailing `temp_record[path[-1]] = value` assignment target: both refer to
the whole original path, not to the loop position. -/
def csrBuild (value : Val) (lastKey : String) (len1 : Bool) :
    Val → List String → Except PyErr (List (String × Val))
  | _, [] => .ok [(lastKey, value)]
  | props, key :: rest =>
    match pyIndex props key with
    | .error e => .error e
    | .ok ns =>
      match pyIndex ns "type" with
      | .error e => .error e
      | .ok t =>
        if isStrV t "object" then
          match pyIndex ns "properties" with
          | .error e => .error e
          | .ok props2 =>
            match csrBuild value lastKey len1 props2 rest with
            | .error e => .error e
            | .ok inner => .ok [(key, .vobj inner)]
        else if isStrV t "array" then
          match pyIndex ns "items" with
          | .error e => .error e
          | .ok items =>
            match pyIndex items "type" with
            | .error e => .error e
            | .ok it =>
              match (if isStrV it "object" then pyIndex items "properties" else Except.ok ns) with
              | .error e => .error e
              | .ok props2 =>
                if len1 then .ok [(key, .varr [value])]
                else
                  match csrBuild value lastKey len1 props2 rest with
                  | .error e => .error e
                  | .ok inner => .ok [(key, .varr [.vobj inner])]
        else
          csrBuild value lastKey len1 ns rest

/-- `create_schema_record(schema, path, value)` (actions.py lines 178-204),
returning the contents of the freshly built record dict. -/
def create_schema_record (schema : Val) (path : List String) (value : Val) :
    Except PyErr (List (String × Val)) :=
  match schemaTopProps schema with
  | .error e => .error e
  | .ok props =>
    match path.getLast? with
    | none => .error .indexError
    | some lastKey => csrBuild value lastKey (path.length == 1) props path

/-- Sequentially apply a record-rewriting step to every element of a list
(the source's fan-out loops), threading the changed flag and stopping at the
first raised error. -/
def applyListE (f : Val → Bool → Except PyErr (Val × Bool)) :
    List Val → Bool → Except PyErr (List Val × Bool)
  | [], ch => .ok ([], ch)
  | x :: xs, ch =>
    match f x ch with
    | .error e => .error e
    | .ok (x2, ch2) =>
      match applyListE f xs ch2 with
      | .error e => .error e
      | .ok (xs2, ch3) => .ok (x2 :: xs2, ch3)

/-- Error-propagating list map (a Python list comprehension). -/
def mapE (f : Val → Except PyErr Val) : List Val → Except PyErr (List Val)
  | [] => .ok []
  | x :: xs =>
    match f x with
    | .error e => .error e
    | .ok y =>
      match mapE f xs with
      | .error e => .error e
      | .ok ys => .ok (y :: ys)

/-- Error-propagating list filter (the source's `filter` calls). -/
def filterE (keep : Val → Except PyErr Bool) : List Val → Except PyErr (List Val)
  | [] => .ok []
  | x :: xs =>
    match keep x with
    | .error e => .error e
    | .ok b =>
      match filterE keep xs with
      | .error e => .error e
      | .ok ys => .ok (if b then x :: ys else ys)

/-- The array-leaf filtering of `Deletion.apply_action` (actions.py lines
100-110): drop matching elements; an unknown match type leaves the list
untouched. -/
def delFilter (fuel : Nat) (mt : String) (vtc : Val) (l : List Val) :
    Except PyErr (List Val) :=
  if mt == "regex" then
    filterE (fun x =>
      match reSearchVal vtc x with
      | .error e => .error e
      | .ok b => .ok !b) l
  else if mt == "equal" then .ok (l.filter (fun x => !pyEqF fuel x vtc))
  else if mt == "contains" then
    filterE (fun x =>
      match pyContainsE fuel vtc x with
      | .error e => .error e
      | .ok b => .ok !b) l
  else .ok l

/-- The scalar-leaf predicate chain of `Deletion.apply_action` (actions.py
lines 113-121): whether the present value is to be deleted. -/
def scalarDelTest (fuel : Nat) (mt : String) (vtc rv : Val) : Except PyErr Bool :=
  if mt == "equal" then .ok (pyEqF fuel rv vtc)
  else if mt == "regex" then reSearchVal vtc rv
  else if mt == "contains" then pyContainsE fuel vtc rv
  else .ok false

/-- An empty dict, empty string or empty list — the sentinels pruned by
Deletion's unwind cleanup (`in [{}, '', []]` compares only against these
three empty literals). -/
def isEmptySentinel : Val → Bool
  | .vobj d => d.isEmpty
  | .vstr s => s == ""
  | .varr l => l.isEmpty
  | _ => false

/-- The unwind cleanup of `Deletion.apply_action` (actions.py lines
131-134), applied to a dict in which `key` is present: empty-sentinel
elements are filtered out of a list value, and the key is deleted when its
value is itself an empty sentinel. -/
def delCleanup (d : List (String × Val)) (key : String) : List (String × Val) :=
  match dget d key with
  | some (.varr l) =>
    let l2 := l.filter (fun it => !isEmptySentinel it)
    if l2.isEmpty then ddel d key else dset d key (.varr l2)
  | some v => if isEmptySentinel v then ddel d key else d
  | none => d

/-- The list-leaf rewriting of `Update.apply_action` (actions.py lines
147-157): replace each matching element by the action's value. -/
def updArr (fuel : Nat) (mt : String) (vtc value : Val) (l : List Val) :
    Except PyErr (List Val) :=
  if mt == "regex" then
    mapE (fun x =>
      match reSearchVal vtc x with
      | .error e => .error e
      | .ok b => .ok (if b then value else x)) l
  else if mt == "equal" then
    .ok (l.map (fun x => if pyEqF fuel x vtc then value else x))
  else if mt == "contains" then
    mapE (fun x =>
      match pyContainsE fuel vtc x with
      | .error e => .error e
      | .ok b => .ok (if b then value else x)) l
  else .ok l

/-- The scalar-leaf rewriting of `Update.apply_action` (actions.py lines
160-167): an equality test in its own `if`, then a regex/contains chain on
the (possibly already replaced) current value. -/
def updScalar (fuel : Nat) (mt : String) (vtc value rv : Val) : Except PyErr Val :=
  let r1 := if mt == "equal" && pyEqF fuel rv vtc then value else rv
  if mt == "regex" then
    match reSearchVal vtc r1 with
    | .error e => .error e
    | .ok b => .ok (if b then value else r1)
  else if mt == "contains" then
    match pyContainsE fuel vtc r1 with
    | .error e => .error e
    | .ok b => .ok (if b then value else r1)
  else .ok r1

/-- `Addition.apply_action(record, schema, position, checked)` (actions.py
lines 63-87), returning the rewritten record and the changed flag (the
source mutates `record` and `self.changed` in place). -/
def Addition.apply_action (self : Action) :
    Nat → Val → Val → Nat → Nat → Bool → Except PyErr (Val × Bool)
  | 0, _, _, _, _, _ => .error .fuel
  | fuel + 1, record, schema, pos, checked, changed =>
    match progress_keys fuel self record schema pos checked with
    | .error e => .error e
    | .ok (ns, checked2, key, failed) =>
      if failed then .ok (record, changed)
      else
        match record with
        | .vobj d =>
          let missing : Except PyErr (Val × Bool) :=
            if !self.conditions.isEmpty && decide (checked2 < self.conditions.length) then
              .ok (record, changed)
            else
              match create_schema_record schema (self.keys.drop pos) self.value with
              | .error e => .error e
              | .ok created => .ok (.vobj (dictUpdate d created), true)
          match dget d key with
          | none => missing
          | some rv =>
            if !rv.truthy then missing
            else if pos == self.keys.length - 1 then
              match rv with
              | .varr l => .ok (.vobj (dset d key (.varr (l ++ [self.value]))), true)
              | _ => .ok (record, changed)
            else
              match rv with
              | .varr l =>
                match applyListE
                    (fun x ch => Addition.apply_action self fuel x ns (pos + 1) checked2 ch)
                    l changed with
                | .error e => .error e
                | .ok (l2, ch2) => .ok (.vobj (dset d key (.varr l2)), ch2)
              | _ =>
                match Addition.apply_action self fuel rv ns (pos + 1) checked2 changed with
                | .error e => .error e
                | .ok (rv2, ch2) => .ok (.vobj (dset d key rv2), ch2)
        | _ => .error .attrError

/-- `Deletion.apply_action(record, schema, position, checked)` (actions.py
lines 90-134).  The scalar leaf deletes on a match and sets the changed flag
unconditionally, returning before the cleanup; the array leaf filters
without touching the flag; the unwind cleanup runs after the leaf-array and
recursive cases. -/
def Deletion.apply_action (self : Action) :
    Nat → Val → Val → Nat → Nat → Bool → Except PyErr (Val × Bool)
  | 0, _, _, _, _, _ => .error .fuel
  | fuel + 1, record, schema, pos, checked, changed =>
    match progress_keys fuel self record schema pos checked with
    | .error e => .error e
    | .ok (ns, checked2, key, failed) =>
      if failed then .ok (record, changed)
      else
        match record with
        | .vobj d =>
          match dget d key with
          | none => .ok (record, changed)
          | some rv =>
            if !rv.truthy then .ok (record, changed)
            else if pos == self.keys.length - 1 then
              match rv with
              | .varr l =>
                match delFilter fuel self.match_type self.value_to_check l with
                | .error e => .error e
                | .ok l2 => .ok (.vobj (delCleanup (dset d key (.varr l2)) key), changed)
              | _ =>
                match scalarDelTest fuel self.match_type self.value_to_check rv with
                | .error e => .error e
                | .ok doDel =>
                  if doDel then .ok (.vobj (ddel d key), true) else .ok (record, true)
            else
              match rv with
              | .varr l =>
                match applyListE
                    (fun x ch => Deletion.apply_action self fuel x ns (pos + 1) checked2 ch)
                    l changed with
                | .error e => .error e
                | .ok (l2, ch2) => .ok (.vobj (delCleanup (dset d key (.varr l2)) key), ch2)
              | _ =>
                match Deletion.apply_action self fuel rv ns (pos + 1) checked2 changed with
                | .error e => .error e
                | .ok (rv2, ch2) => .ok (.vobj (delCleanup (dset d key rv2) key), ch2)
        | _ => .error .attrError

/-- `Update.apply_action(record, schema, position, checked)` (actions.py
lines 137-175).  Both leaf branches set the changed flag unconditionally,
whether or not the predicate matched anything. -/
def Update.apply_action (self : Action) :
    Nat → Val → Val → Nat → Nat → Bool → Except PyErr (Val × Bool)
  | 0, _, _, _, _, _ => .error .fuel
  | fuel + 1, record, schema, pos, checked, changed =>
    match progress_keys fuel self record schema pos checked with
    | .error e => .error e
    | .ok (ns, checked2, key, failed) =>
      if failed then .ok (record, changed)
      else
        match record with
        | .vobj d =>
          match dget d key with
          | none => .ok (record, changed)
          | some rv =>
            if !rv.truthy then .ok (record, changed)
            else if pos == self.keys.length - 1 then
              match rv with
              | .varr l =>
                match updArr fuel self.match_type self.value_to_check self.value l with
                | .error e => .error e
                | .ok l2 => .ok (.vobj (dset d key (.varr l2)), true)
              | _ =>
                match updScalar fuel self.match_type self.value_to_check self.value rv with
                | .error e => .error e
                | .ok rv2 => .ok (.vobj (dset d key rv2), true)
            else
              match rv with
              | .varr l =>
                match applyListE
                    (fun x ch => Update.apply_action self fuel x ns (pos + 1) checked2 ch)
                    l changed with
                | .error e => .error e
                | .ok (l2, ch2) => .ok (.vobj (dset d key (.varr l2)), ch2)
              | _ =>
                match Update.apply_action self fuel rv ns (pos + 1) checked2 changed with
                | .error e => .error e
                | .ok (rv2, ch2) => .ok (.vobj (dset d key rv2), ch2)
        | _ => .error .attrError

/-- A condition description as submitted by the user (`key`, `value`,
`matchType`). -/
structure CondDesc where
  key : String
  value : Val
  matchType : String

/-- An action description as submitted by the user. -/
structure ActionDesc where
  mainKey : String
  actionName : String
  value : Val := .vnone
  updateValue : Val := .vnone
  matchType : String := ""

/-- A constructed action object, tagged by its class. -/
inductive ActionKind where
  | addition : Action → ActionKind
  | deletion : Action → ActionKind
  | update : Action → ActionKind

/-- A user-actions dictionary: the `conditions` and `actions` entries. -/
structure UserActions where
  conditions : List CondDesc := []
  actions : List ActionDesc := []

/-- Python `str.split('/')`: the empty string splits into `[""]`, never into
the empty list. -/
def splitSlash : List Char → List (List Char)
  | [] => [[]]
  | c :: rest =>
    let r := splitSlash rest
    if c == '/' then [] :: r
    else
      match r with
      | [] => [[c]]
      | h :: t => (c :: h) :: t

/-- Python `s.split('/')` on strings. -/
def pySplit (s : String) : List String :=
  (splitSlash s.data).map (fun l => String.mk l)

/-- The condition loop of `get_actions` (actions.py lines 250-257): skip
descriptions with an empty key, split the rest. -/
def buildConditions : List CondDesc → List Condition
  | [] => []
  | c :: rest =>
    if c.key == "" then buildConditions rest
    else ⟨pySplit c.key, c.value, c.matchType⟩ :: buildConditions rest

/-- The action loop of `get_actions` (actions.py lines 259-277): split each
`mainKey`, abort (returning `None`) if the split is the empty list, and
instantiate the named action class; unrecognized names are skipped. -/
def buildActions (conds : List Condition) : List ActionDesc → Option (List ActionKind)
  | [] => some []
  | a :: rest =>
    let keys := pySplit a.mainKey
    if keys.isEmpty then none
    else
      match buildActions conds rest with
      | none => none
      | some acts =>
        if a.actionName == "Addition" then
          some (.addition ⟨keys, a.value, a.matchType, .vnone, conds⟩ :: acts)
        else if a.actionName == "Deletion" then
          some (.deletion ⟨keys, a.value, a.matchType, a.updateValue, conds⟩ :: acts)
        else if a.actionName == "Update" then
          some (.update ⟨keys, a.value, a.matchType, a.updateValue, conds⟩ :: acts)
        else some acts

/-- `get_actions(user_actions)` (actions.py lines 244-277); a falsy input
(`None` or an empty dict, modelled as `none`) returns `None`. -/
def get_actions : Option UserActions → Option (List ActionKind)
  | none => none
  | some ua => buildActions (buildConditions ua.conditions) ua.actions

section ClaimSupport

/-- Whether `d.get(key)` is truthy: the key is present with a truthy value. -/
def truthyGet (d : List (String × Val)) (key : String) : Bool :=
  match dget d key with
  | some v => v.truthy
  | none => false

/-- Whether `v` is a Python list. -/
def Val.isArr : Val → Bool
  | .varr _ => true
  | _ => false

/-- The record lacks a segment of the path below depth `pos`: the current
key is absent (or falsy, which the engine treats identically), or every
branch of the well-shaped tree below lacks a deeper segment before the final
one is reached.  Scalars in path position and exhausted paths do not count
as lacking. -/
def lacksPathF : Nat → Val → List String → Nat → Bool
  | 0, _, _, _ => false
  | fuel + 1, record, keys, pos =>
    match record with
    | .vobj d =>
      match keys[pos]? with
      | none => false
      | some key =>
        match dget d key with
        | none => true
        | some v =>
          if !v.truthy then true
          else if pos + 1 == keys.length then false
          else
            match v with
            | .varr l => l.all (fun x => lacksPathF fuel x keys (pos + 1))
            | .vobj _ => lacksPathF fuel v keys (pos + 1)
            | _ => false
    | _ => false

/-- Read a value back along a path: look the key up at each step, cross
single-element arrays at intermediate steps, and return the stored value
raw at the final step. -/
def getAlong : Val → List String → Option Val
  | v, [] => some v
  | .vobj d, k :: rest =>
    match dget d k with
    | none => none
    | some w =>
      if rest.isEmpty then some w
      else
        match w with
        | .varr [x] => getAlong x rest
        | .vobj _ => getAlong w rest
        | _ => none
  | _, _ :: _ => none

/-- The schema (given as a properties dict) declares every intermediate path
key as an object or an array of objects, and the final key with a scalar
type (neither object nor array). -/
def goodScalarPath : Val → List String → Bool
  | props, [k] =>
    match pyIndex props k with
    | .ok ns =>
      match pyIndex ns "type" with
      | .ok t => !isStrV t "object" && !isStrV t "array"
      | .error _ => false
    | .error _ => false
  | props, k :: rest =>
    match pyIndex props k with
    | .ok ns =>
      match pyIndex ns "type" with
      | .ok t =>
        if isStrV t "object" then
          match pyIndex ns "properties" with
          | .ok props2 => goodScalarPath props2 rest
          | .error _ => false
        else if isStrV t "array" then
          match pyIndex ns "items" with
          | .ok items =>
            match pyIndex items "type" with
            | .ok it =>
              if isStrV it "object" then
                match pyIndex items "properties" with
                | .ok props2 => goodScalarPath props2 rest
                | .error _ => false
              else false
            | .error _ => false
          | .error _ => false
        else false
      | .error _ => false
    | .error _ => false
  | _, [] => false

/-- The schema (given as a properties dict) declares the key as an array,
with the item fields `create_schema_record` reads all present. -/
def arrayKeyOk (props : Val) (k : String) : Bool :=
  match pyIndex props k with
  | .ok ns =>
    match pyIndex ns "type" with
    | .ok t =>
      isStrV t "array" &&
        (match pyIndex ns "items" with
         | .ok items =>
           match pyIndex items "type" with
           | .ok it =>
             if isStrV it "object" then
               match pyIndex items "properties" with
               | .ok _ => true
               | .error _ => false
             else true
           | .error _ => false
         | .error _ => false)
    | .error _ => false
  | .error _ => false

/-- The string contains no regex metacharacter. -/
def noMeta (s : String) : Bool := s.data.all (fun c => !isMeta c)

end ClaimSupport

section BasicLemmas

theorem parseLit_escapeList : ∀ cs : List Char, parseLit (escapeList cs) = some cs := by
  intro cs
  induction cs with
  | nil => rfl
  | cons c rest ih =>
    show parseLit (escapeChar c ++ escapeList rest) = some (c :: rest)
    cases ha : isAlnumUnd c with
    | true =>
      have hc1 : ¬ (c = '\\') := by
        intro he; subst he; simp [isAlnumUnd] at ha
      rw [escapeChar, if_pos ha]
      show parseLit (c :: escapeList rest) = some (c :: rest)
      rw [parseLit.eq_def]
      simp [hc1, ha, ih]
    | false =>
      by_cases hz : c = Char.ofNat 0
      · subst hz
        rw [escapeChar, if_neg (by simp [ha]), if_pos rfl]
        show parseLit ('\\' :: '0' :: '0' :: '0' :: escapeList rest) = _
        rw [parseLit.eq_def]
        simp [ih]
      · have hd0 : ¬ (c = '0') := by
          intro he; subst he; simp [isAlnumUnd] at ha
        rw [escapeChar, if_neg (by simp [ha]), if_neg hz]
        show parseLit ('\\' :: c :: escapeList rest) = _
        rw [parseLit.eq_def]
        simp [hd0, ha, ih]

theorem dget_dset_self : ∀ (d : List (String × Val)) (k : String) (w : Val),
    dget (dset d k w) k = some w := by
  intro d k w
  induction d with
  | nil => simp [dset, dget]
  | cons kv rest ih =>
    obtain ⟨k1, v1⟩ := kv
    by_cases h : k1 = k
    · simp [dset, dget, h]
    · simp [dset, dget, h, ih]

theorem dset_self : ∀ (d : List (String × Val)) (k : String) (v : Val),
    dget d k = some v → dset d k v = d := by
  intro d k v
  induction d with
  | nil => intro h; simp [dget] at h
  | cons kv rest ih =>
    obtain ⟨k1, v1⟩ := kv
    intro h
    by_cases he : k1 = k
    · simp [dget, he] at h
      simp [dset, he, h]
    · simp [dget, he] at h
      simp [dset, he, ih h]

theorem applyListE_frame (f : Val → Bool → Except PyErr (Val × Bool)) (P : Val → Prop)
    (hf : ∀ x ch out, P x → f x ch = .ok out → out = (x, ch)) :
    ∀ (l : List Val) (ch : Bool) (out : List Val × Bool),
      (∀ x ∈ l, P x) → applyListE f l ch = .ok out → out = (l, ch) := by
  intro l
  induction l with
  | nil =>
    intro ch out _ happ
    simp only [applyListE, Except.ok.injEq] at happ
    exact happ.symm
  | cons x xs ih =>
    intro ch out hP happ
    simp only [applyListE] at happ
    cases hx : f x ch with
    | error e => simp only [hx] at happ; exact absurd happ (by simp)
    | ok p =>
      obtain ⟨x2, ch2⟩ := p
      simp only [hx] at happ
      have hx2 : (x2, ch2) = (x, ch) := hf x ch (x2, ch2) (hP x (by simp)) hx
      cases hxs : applyListE f xs ch2 with
      | error e => simp only [hxs] at happ; exact absurd happ (by simp)
      | ok q =>
        obtain ⟨xs2, ch3⟩ := q
        simp only [hxs, Except.ok.injEq] at happ
        have hq : (xs2, ch3) = (xs, ch2) :=
          ih ch2 (xs2, ch3) (fun y hy => hP y (by simp [hy])) hxs
        obtain ⟨h1, h2⟩ := Prod.mk.injEq .. ▸ hx2
        obtain ⟨h3, h4⟩ := Prod.mk.injEq .. ▸ hq
        subst h1 h2 h3 h4
        exact happ.symm

theorem boolScan_ok_iff (f : Val → Except PyErr Bool) :
    ∀ (l : List Val) (b : Bool), boolScan f l = .ok b →
      (b = true ↔ ∃ x ∈ l, f x = .ok true) := by
  intro l
  induction l with
  | nil =>
    intro b h
    simp only [boolScan, Except.ok.injEq] at h
    subst h
    simp
  | cons x xs ih =>
    intro b h
    simp only [boolScan] at h
    cases hx : f x with
    | error e =>
      rw [hx] at h
      exact absurd h (by simp)
    | ok bx =>
      rw [hx] at h
      cases bx with
      | true =>
        simp only [Except.ok.injEq] at h
        subst h
        simp only [true_iff]
        exact ⟨x, by simp, hx⟩
      | false =>
        rw [ih b h]
        constructor
        · rintro ⟨y, hy, hfy⟩
          exact ⟨y, by simp [hy], hfy⟩
        · rintro ⟨y, hy, hfy⟩
          rcases List.mem_cons.mp hy with rfl | hy2
          · rw [hx] at hfy; exact absurd hfy (by simp)
          · exact ⟨y, hy2, hfy⟩

theorem boolScan_congr (f g : Val → Except PyErr Bool) :
    ∀ (l : List Val), (∀ x ∈ l, f x = g x) → boolScan f l = boolScan g l := by
  intro l
  induction l with
  | nil => intro _; rfl
  | cons x xs ih =>
    intro h
    simp only [boolScan]
    rw [h x (by simp), ih (fun y hy => h y (by simp [hy]))]

end BasicLemmas

section NoopLemmas

theorem progress_keys_key (fuel : Nat) (self : Action) (record schema : Val)
    (pos checked : Nat) (ns : Val) (ck2 : Nat) (key : String) (failed : Bool)
    (hp : progress_keys fuel self record schema pos checked = .ok (ns, ck2, key, failed)) :
    self.keys[pos]? = some key := by
  unfold progress_keys at hp
  cases hk : self.keys[pos]? with
  | none => simp only [hk] at hp; exact absurd hp (by simp)
  | some k =>
    simp only [hk] at hp
    cases hs : schemaStep schema k with
    | error e => simp only [hs] at hp; exact absurd hp (by simp)
    | ok ns2 =>
      simp only [hs] at hp
      cases hc : condLoop fuel record self.keys pos k self.conditions checked false with
      | error e => simp only [hc] at hp; exact absurd hp (by simp)
      | ok p =>
        obtain ⟨c2, fl⟩ := p
        simp only [hc, Except.ok.injEq, Prod.mk.injEq] at hp
        rw [hp.2.2.1]

theorem deletion_missing_noop (fuel : Nat) (self : Action) (schema : Val)
    (pos checked : Nat) (ch : Bool) (d : List (String × Val))
    (ns : Val) (ck2 : Nat) (key : String)
    (hp : progress_keys fuel self (.vobj d) schema pos checked = .ok (ns, ck2, key, false))
    (hm : truthyGet d key = false) :
    Deletion.apply_action self (fuel + 1) (.vobj d) schema pos checked ch = .ok (.vobj d, ch) := by
  unfold truthyGet at hm
  simp only [Deletion.apply_action, hp]
  cases hg : dget d key with
  | none => simp [hg]
  | some v =>
    simp only [hg] at hm
    simp [hg, hm]

theorem update_missing_noop (fuel : Nat) (self : Action) (schema : Val)
    (pos checked : Nat) (ch : Bool) (d : List (String × Val))
    (ns : Val) (ck2 : Nat) (key : String)
    (hp : progress_keys fuel self (.vobj d) schema pos checked = .ok (ns, ck2, key, false))
    (hm : truthyGet d key = false) :
    Update.apply_action self (fuel + 1) (.vobj d) schema pos checked ch = .ok (.vobj d, ch) := by
  unfold truthyGet at hm
  simp only [Update.apply_action, hp]
  cases hg : dget d key with
  | none => simp [hg]
  | some v =>
    simp only [hg] at hm
    simp [hg, hm]

theorem addition_gate_noop (fuel : Nat) (self : Action) (schema : Val)
    (pos checked : Nat) (ch : Bool) (d : List (String × Val))
    (ns : Val) (ck2 : Nat) (key : String)
    (hp : progress_keys fuel self (.vobj d) schema pos checked = .ok (ns, ck2, key, false))
    (hm : truthyGet d key = false)
    (hne : self.conditions ≠ [])
    (hlt : ck2 < self.conditions.length) :
    Addition.apply_action self (fuel + 1) (.vobj d) schema pos checked ch = .ok (.vobj d, ch) := by
  unfold truthyGet at hm
  have hne2 : self.conditions.isEmpty = false := by
    cases hcs : self.conditions with
    | nil => exact absurd hcs hne
    | cons a b => rfl
  simp only [Addition.apply_action, hp]
  cases hg : dget d key with
  | none => simp [hg, hne2, hlt]
  | some v =>
    simp only [hg] at hm
    simp [hg, hm, hne2, hlt]

end NoopLemmas

section FrameLemma

theorem update_frame_lacks (self : Action) :
    ∀ (fuel : Nat) (schema record : Val) (pos checked : Nat) (ch : Bool) (out : Val × Bool),
      lacksPathF fuel record self.keys pos = true →
      Update.apply_action self fuel record schema pos checked ch = .ok out →
      out = (record, ch) := by
  intro fuel
  induction fuel with
  | zero =>
    intro schema record pos checked ch out hl happ
    simp [lacksPathF] at hl
  | succ fuel ih =>
    intro schema record pos checked ch out hl happ
    cases record with
    | vnone => simp [lacksPathF] at hl
    | vstr s => simp [lacksPathF] at hl
    | vbool b => simp [lacksPathF] at hl
    | vint n => simp [lacksPathF] at hl
    | varr l => simp [lacksPathF] at hl
    | vobj d =>
      simp only [lacksPathF] at hl
      simp only [Update.apply_action] at happ
      cases hp : progress_keys fuel self (.vobj d) schema pos checked with
      | error e => simp only [hp] at happ; exact absurd happ (by simp)
      | ok r =>
        obtain ⟨ns, ck2, key, failed⟩ := r
        have hk : self.keys[pos]? = some key :=
          progress_keys_key fuel self (.vobj d) schema pos checked ns ck2 key failed hp
        simp only [hk] at hl
        simp only [hp] at happ
        cases failed with
        | true =>
          simp only [if_true, Except.ok.injEq] at happ
          exact happ.symm
        | false =>
          simp only [Bool.false_eq_true, if_false] at happ
          cases hg : dget d key with
          | none =>
            simp only [hg, Except.ok.injEq] at happ
            exact happ.symm
          | some v =>
            simp only [hg] at hl happ
            cases htr : v.truthy with
            | false =>
              simp only [htr, Bool.not_false, if_true, Except.ok.injEq] at happ
              exact happ.symm
            | true =>
              simp only [htr, Bool.not_true, Bool.false_eq_true, if_false] at happ
              simp only [htr, Bool.not_true, Bool.false_eq_true, if_false] at hl
              have hne : (pos + 1 == self.keys.length) = false := by
                cases hb : (pos + 1 == self.keys.length) with
                | false => rfl
                | true => rw [hb] at hl; simp at hl
              simp only [hne, Bool.false_eq_true, if_false] at hl
              have hpos : pos < self.keys.length := by
                rcases List.getElem?_eq_some.mp hk with ⟨h, _⟩
                exact h
              have hleaf : (pos == self.keys.length - 1) = false := by
                simp only [beq_eq_false_iff_ne, ne_eq]
                have := beq_eq_false_iff_ne.mp hne
                omega
              simp only [hleaf, Bool.false_eq_true, if_false] at happ
              cases v with
              | vnone => simp at hl
              | vstr s => simp at hl
              | vbool b => simp at hl
              | vint n => simp at hl
              | varr l =>
                dsimp only at hl happ
                cases hA : applyListE
                    (fun x ch => Update.apply_action self fuel x ns (pos + 1) ck2 ch)
                    l ch with
                | error e => simp only [hA] at happ; exact absurd happ (by simp)
                | ok q =>
                  obtain ⟨l2, ch2⟩ := q
                  have hq : (l2, ch2) = (l, ch) := by
                    refine applyListE_frame _
                      (fun x => lacksPathF fuel x self.keys (pos + 1) = true)
                      ?_ l ch (l2, ch2) ?_ hA
                    · intro x c o hx ho
                      exact ih ns x (pos + 1) ck2 c o hx ho
                    · intro x hx
                      exact List.all_eq_true.mp hl x hx
                  have h1 : l2 = l := (Prod.mk.injEq .. ▸ hq).1
                  have h2 : ch2 = ch := (Prod.mk.injEq .. ▸ hq).2
                  simp only [hA, Except.ok.injEq] at happ
                  rw [h1, h2, dset_self d key (.varr l) hg] at happ
                  exact happ.symm
              | vobj dd =>
                dsimp only at hl happ
                cases hr : Update.apply_action self fuel (.vobj dd) ns (pos + 1) ck2 ch with
                | error e => simp only [hr] at happ; exact absurd happ (by simp)
                | ok q =>
                  obtain ⟨rv2, ch2⟩ := q
                  have hq : (rv2, ch2) = (.vobj dd, ch) :=
                    ih ns (.vobj dd) (pos + 1) ck2 ch (rv2, ch2) hl hr
                  have h1 : rv2 = .vobj dd := (Prod.mk.injEq .. ▸ hq).1
                  have h2 : ch2 = ch := (Prod.mk.injEq .. ▸ hq).2
                  simp only [hr, Except.ok.injEq] at happ
                  rw [h1, h2, dset_self d key (.vobj dd) hg] at happ
                  exact happ.symm

end FrameLemma

section CsrLemmas

theorem csr_good :
    ∀ (path : List String) (props value : Val) (lk : String) (len1 : Bool),
      goodScalarPath props path = true →
      path.getLast? = some lk →
      (len1 = false ∨ path.length = 1) →
      ∃ cd, csrBuild value lk len1 props path = .ok cd ∧
        getAlong (.vobj cd) path = some value := by
  intro path
  induction path with
  | nil =>
    intro props value lk len1 hg hlast hlen
    simp [goodScalarPath] at hg
  | cons k rest ihp =>
    intro props value lk len1 hg hlast hlen
    cases rest with
    | nil =>
      have hlk : lk = k := by
        simp [List.getLast?] at hlast
        exact hlast.symm
      rw [hlk]
      simp only [goodScalarPath] at hg
      cases hn : pyIndex props k with
      | error e => simp only [hn] at hg; exact absurd hg (by simp)
      | ok ns =>
        simp only [hn] at hg
        cases ht : pyIndex ns "type" with
        | error e => simp only [ht] at hg; exact absurd hg (by simp)
        | ok t =>
          simp only [ht, Bool.and_eq_true, Bool.not_eq_eq_eq_not, Bool.not_true] at hg
          refine ⟨[(k, value)], ?_, ?_⟩
          · simp only [csrBuild, hn, ht, hg.1, hg.2, Bool.false_eq_true, if_false]
          · simp [getAlong, dget]
    | cons r rs =>
      have hlast2 : (r :: rs).getLast? = some lk := by
        rwa [List.getLast?_cons_cons] at hlast
      have hlen2 : len1 = false := by
        rcases hlen with h | h
        · exact h
        · simp [List.length_cons] at h
      subst hlen2
      simp only [goodScalarPath] at hg
      cases hn : pyIndex props k with
      | error e => simp only [hn] at hg; exact absurd hg (by simp)
      | ok ns =>
        simp only [hn] at hg
        cases ht : pyIndex ns "type" with
        | error e => simp only [ht] at hg; exact absurd hg (by simp)
        | ok t =>
          simp only [ht] at hg
          cases hto : isStrV t "object" with
          | true =>
            simp only [hto, if_true] at hg
            cases hpr : pyIndex ns "properties" with
            | error e => simp only [hpr] at hg; exact absurd hg (by simp)
            | ok props2 =>
              simp only [hpr] at hg
              obtain ⟨cd, hcd, hga⟩ := ihp props2 value lk false hg hlast2 (Or.inl rfl)
              refine ⟨[(k, .vobj cd)], ?_, ?_⟩
              · rw [csrBuild.eq_def]
                dsimp only
                simp only [hn, ht, hto, if_true, hpr, hcd]
              · simp only [getAlong, dget, beq_self_eq_true, if_true, List.isEmpty_cons,
                  Bool.false_eq_true, if_false]
                exact hga
          | false =>
            simp only [hto, Bool.false_eq_true, if_false] at hg
            cases hta : isStrV t "array" with
            | false => simp only [hta, Bool.false_eq_true, if_false] at hg
            | true =>
              simp only [hta, if_true] at hg
              cases hit : pyIndex ns "items" with
              | error e => simp only [hit] at hg; exact absurd hg (by simp)
              | ok items =>
                simp only [hit] at hg
                cases hit2 : pyIndex items "type" with
                | error e => simp only [hit2] at hg; exact absurd hg (by simp)
                | ok it =>
                  simp only [hit2] at hg
                  cases hio : isStrV it "object" with
                  | false => simp only [hio, Bool.false_eq_true, if_false] at hg
                  | true =>
                    simp only [hio, if_true] at hg
                    cases hpr : pyIndex items "properties" with
                    | error e => simp only [hpr] at hg; exact absurd hg (by simp)
                    | ok props2 =>
                      simp only [hpr] at hg
                      obtain ⟨cd, hcd, hga⟩ := ihp props2 value lk false hg hlast2 (Or.inl rfl)
                      refine ⟨[(k, .varr [.vobj cd])], ?_, ?_⟩
                      · rw [csrBuild.eq_def]
                        dsimp only
                        simp only [hn, ht, hto, hta, hit, hit2, hio, hpr, hcd,
                          Bool.false_eq_true, if_false, if_true]
                      · simp only [getAlong, dget, beq_self_eq_true, if_true, List.isEmpty_cons,
                          Bool.false_eq_true, if_false]
                        exact hga

theorem leafMatch_regex_eq_contains (fuel : Nat) (s h : String) :
    leafMatch fuel "regex" (.vstr s) (.vstr h) = leafMatch fuel "contains" (.vstr s) (.vstr h) := by
  have h2 : reSearch (reEscape s) h = .ok (subList s.data h.data) := by
    unfold reSearch
    have he : (reEscape s).data = escapeList s.data := rfl
    rw [he, parseLit_escapeList]
  calc leafMatch fuel "regex" (.vstr s) (.vstr h) = reSearch (reEscape s) h := rfl
    _ = .ok (subList s.data h.data) := h2
    _ = leafMatch fuel "contains" (.vstr s) (.vstr h) := rfl

end CsrLemmas

section ClaimData

/-- The record of the deletion pruning-cascade scenario. -/
def recCascade : Val := .vobj [("key_a", .varr [
  .vobj [("key_c", .varr [.vstr "val5", .vstr "val4"])],
  .vobj [("key_c", .varr [.vstr "val1", .vstr "val6"])],
  .vobj [("key_c", .varr [.vstr "val6", .vstr "val6"])],
  .vobj [("key_c", .varr [.vstr "val3"])]])]

/-- The expected result of the deletion pruning-cascade scenario. -/
def expCascade : Val := .vobj [("key_a", .varr [
  .vobj [("key_c", .varr [.vstr "val5", .vstr "val4"])],
  .vobj [("key_c", .varr [.vstr "val1"])],
  .vobj [("key_c", .varr [.vstr "val3"])]])]

/-- The deletion of the pruning-cascade scenario. -/
def actCascade : Action :=
  { keys := ["key_a", "key_c"], value_to_check := .vstr "val6", match_type := "equal" }

/-- A record in which every branch lacks the second path segment of
`actPrune`, yet whose only array element is an empty dict. -/
def recPrune : Val := .vobj [("key_a", .varr [.vobj []])]

/-- A deletion whose second path segment is absent from `recPrune`. -/
def actPrune : Action :=
  { keys := ["key_a", "key_b"], value_to_check := .vstr "x", match_type := "equal" }

/-- A record carrying a scalar where the path of `actScalarMid` still has a
segment left. -/
def recScalarMid : Val := .vobj [("a", .vstr "hello")]

/-- A two-segment deletion aimed at `recScalarMid`. -/
def actScalarMid : Action :=
  { keys := ["a", "b"], value_to_check := .vstr "x", match_type := "equal" }

/-- A record with a scalar at the final path segment of `actNoMatch`. -/
def recNoMatch : Val := .vobj [("a", .vstr "x")]

/-- An update whose equality test fails on `recNoMatch`. -/
def actNoMatch : Action :=
  { keys := ["a"], value_to_check := .vstr "y", match_type := "equal", value := .vstr "z" }

/-- A schema declaring `a` as an object holding `b`, an array of strings. -/
def schemaDeepArr : Val := .vobj [("type", .vstr "object"), ("properties", .vobj [
  ("a", .vobj [("type", .vstr "object"), ("properties", .vobj [
    ("b", .vobj [("type", .vstr "array"), ("items", .vobj [("type", .vstr "string")])])])])])]

/-- A user-actions description whose only action has an empty `mainKey`. -/
def uaEmptyKey : UserActions :=
  { actions := [{ mainKey := "", actionName := "Addition", value := .vstr "x",
                  matchType := "equal" }] }

/-- The record of the condition-gating scenario: `core` present but false. -/
def recCore : Val := .vobj [("core", .vbool false)]

/-- The addition of the condition-gating scenario, conditioned on
`core == True`. -/
def actCore : Action :=
  { keys := ["preprint_date"], value := .vstr "2016",
    conditions := [⟨["core"], .vbool true, "equal"⟩] }

/-- A schema declaring the nested object chain `a.x.m` with `m` a string. -/
def schemaAXM : Val := .vobj [("type", .vstr "object"), ("properties", .vobj [
  ("a", .vobj [("type", .vstr "object"), ("properties", .vobj [
    ("x", .vobj [("type", .vstr "object"), ("properties", .vobj [
      ("m", .vobj [("type", .vstr "string")])])])])])])]

/-- A record holding `a` but lacking `a.x`. -/
def recAXM : Val := .vobj [("a", .vobj [("w", .vstr "p")])]

/-- An addition on path `a/x/m` with one condition that is counted twice
(at depths 0 and 1) and one condition that never triggers. -/
def actAXM : Action :=
  { keys := ["a", "x", "m"], value := .vstr "V",
    conditions := [⟨["b", "x"], .vstr "", "missing"⟩,
                   ⟨["a", "x", "m", "q"], .vstr "zzz", "equal"⟩] }

/-- The record produced by applying `actAXM` to `recAXM`. -/
def expAXM : Val := .vobj [("a", .vobj [("w", .vstr "p"), ("x", .vobj [("m", .vstr "V")])])]

/-- A schema declaring `a` as an array of strings. -/
def schemaArrA : Val := .vobj [("type", .vstr "object"), ("properties", .vobj [
  ("a", .vobj [("type", .vstr "array"), ("items", .vobj [("type", .vstr "string")])])])]

/-- A record in which `a` is present but an empty (falsy) array. -/
def recFalsyA : Val := .vobj [("a", .varr [])]

/-- An unconditional addition of a value at `a`. -/
def actAddA : Action := { keys := ["a"], value := .vstr "v" }

end ClaimData

section Claims

/-- Claim C1, counterexample: the record `{"key_a": [{}]}` lacks the
second segment of the deletion path `key_a/key_b` on every branch, yet
applying the Deletion mutates it to `{}` (the empty-sentinel pruning of the
unwind fires), with the changed flag still false — so Deletion does not
leave every such record byte-for-byte unchanged. -/
theorem C1_counterexample :
    lacksPathF 5 recPrune actPrune.keys 0 = true ∧
    Deletion.apply_action actPrune 5 recPrune (.vobj []) 0 0 false = .ok (.vobj [], false) ∧
    Val.vobj [] ≠ recPrune :=
  ⟨rfl, rfl, by simp [recPrune]⟩

/-- Claim C1, amended: an Update applied to a record lacking some segment
of its path (at any depth, along every branch) completes with the record
unchanged and the changed flag still false; a Deletion behaves the same
whenever the key at the current depth is absent or falsy — but, as the
counterexample shows, a Deletion that loses the path deeper down may still
prune empty-sentinel elements while unwinding. -/
theorem C1_amended :
    (∀ (fuel : Nat) (self : Action) (schema record : Val) (pos checked : Nat) (ch : Bool)
        (out : Val × Bool),
        lacksPathF fuel record self.keys pos = true →
        Update.apply_action self fuel record schema pos checked ch = .ok out →
        out = (record, ch)) ∧
    (∀ (fuel : Nat) (self : Action) (schema : Val) (pos checked : Nat) (ch : Bool)
        (d : List (String × Val)) (ns : Val) (ck2 : Nat) (key : String),
        progress_keys fuel self (.vobj d) schema pos checked = .ok (ns, ck2, key, false) →
        truthyGet d key = false →
        Deletion.apply_action self (fuel + 1) (.vobj d) schema pos checked ch
          = .ok (.vobj d, ch)) :=
  ⟨fun fuel self schema record pos checked ch out hl ha =>
      update_frame_lacks self fuel schema record pos checked ch out hl ha,
   fun fuel self schema pos checked ch d ns ck2 key hp hm =>
      deletion_missing_noop fuel self schema pos checked ch d ns ck2 key hp hm⟩

/-- Claim C1, witness: the amended statement applied to concrete inputs —
an Update on `{"a": {}}` with path `a/b` (the value at `a` is falsy) and a
Deletion on `{}` with path `a/b`. -/
theorem C1_amended_witness :
    (((Val.vobj [("a", .vobj [])], false) : Val × Bool) = (.vobj [("a", .vobj [])], false)) ∧
    Deletion.apply_action actScalarMid 3 (.vobj []) (.vobj []) 0 0 false
      = .ok (.vobj [], false) :=
  ⟨C1_amended.1 3 actScalarMid (.vobj []) (.vobj [("a", .vobj [])]) 0 0 false
      (.vobj [("a", .vobj [])], false) rfl rfl,
   C1_amended.2 2 actScalarMid (.vobj []) 0 0 false [] (.vobj []) 0 "a" rfl rfl⟩

/-- Claim C2: applying the Deletion with path `key_a/key_c`, Equal
predicate and check value `"val6"` to the four-element record of the spec
scenario filters the matching strings out of each leaf array, prunes the
element whose array became empty, and yields exactly the expected record. -/
theorem C2_deletion_cascade :
    Deletion.apply_action actCascade 5 recCascade (.vobj []) 0 0 false
      = .ok (expCascade, false) := rfl

/-- Claim C3, counterexample: applying a Deletion with path `a/b` to the
record `{"a": "hello"}` — a scalar where the path still has a remaining
segment — raises an AttributeError (`record.get` on a string) instead of
completing as a silent no-op. -/
theorem C3_counterexample :
    Deletion.apply_action actScalarMid 5 recScalarMid (.vobj []) 0 0 false
      = .error .attrError := rfl

/-- Claim C3, amended: when a path key is missing from (or falsy in) the
current dict, Deletion and Update complete without an exception as silent
no-ops; but a shape mismatch — a scalar where the path still has remaining
segments — raises, as the counterexample shows. -/
theorem C3_amended :
    (∀ (fuel : Nat) (self : Action) (schema : Val) (pos checked : Nat) (ch : Bool)
        (d : List (String × Val)) (ns : Val) (ck2 : Nat) (key : String),
        progress_keys fuel self (.vobj d) schema pos checked = .ok (ns, ck2, key, false) →
        truthyGet d key = false →
        ∃ out, Deletion.apply_action self (fuel + 1) (.vobj d) schema pos checked ch
          = .ok out ∧ out = (.vobj d, ch)) ∧
    (∀ (fuel : Nat) (self : Action) (schema : Val) (pos checked : Nat) (ch : Bool)
        (d : List (String × Val)) (ns : Val) (ck2 : Nat) (key : String),
        progress_keys fuel self (.vobj d) schema pos checked = .ok (ns, ck2, key, false) →
        truthyGet d key = false →
        ∃ out, Update.apply_action self (fuel + 1) (.vobj d) schema pos checked ch
          = .ok out ∧ out = (.vobj d, ch)) :=
  ⟨fun fuel self schema pos checked ch d ns ck2 key hp hm =>
      ⟨(.vobj d, ch), deletion_missing_noop fuel self schema pos checked ch d ns ck2 key hp hm,
        rfl⟩,
   fun fuel self schema pos checked ch d ns ck2 key hp hm =>
      ⟨(.vobj d, ch), update_missing_noop fuel self schema pos checked ch d ns ck2 key hp hm,
        rfl⟩⟩

/-- Claim C3, witness: the amended statement applied to the record
`{"abstracts": [...]}` missing the key `a` targeted by both actions. -/
theorem C3_amended_witness :
    (∃ out, Deletion.apply_action actNoMatch 4 (.vobj [("b", .vstr "y")]) (.vobj []) 0 0 false
        = .ok out ∧ out = (.vobj [("b", .vstr "y")], false)) ∧
    (∃ out, Update.apply_action actNoMatch 4 (.vobj [("b", .vstr "y")]) (.vobj []) 0 0 false
        = .ok out ∧ out = (.vobj [("b", .vstr "y")], false)) :=
  ⟨C3_amended.1 3 actNoMatch (.vobj []) 0 0 false [("b", .vstr "y")] (.vobj []) 0 "a" rfl rfl,
   C3_amended.2 3 actNoMatch (.vobj []) 0 0 false [("b", .vstr "y")] (.vobj []) 0 "a" rfl rfl⟩

/-- Claim C4, counterexample: applying the Update of `actNoMatch` to
`{"a": "x"}` reaches the scalar leaf, matches nothing and leaves the record
unchanged, yet reports the changed flag true — so the flag is not
equivalent to an actual mutation of the record tree. -/
theorem C4_counterexample :
    Update.apply_action actNoMatch 5 recNoMatch (.vobj []) 0 0 false = .ok (recNoMatch, true) ∧
    ¬ ((true = true) ↔ ¬ (recNoMatch = recNoMatch)) :=
  ⟨rfl, by simp⟩

/-- Claim C4, amended: the changed flag does not track mutation. Reaching
the final path segment on a truthy value makes Update report changed
unconditionally (whatever the predicate outcome), while Deletion's
array-leaf filtering leaves the flag exactly as it was, even when elements
were removed. -/
theorem C4_amended :
    (∀ (fuel : Nat) (self : Action) (schema : Val) (pos checked : Nat) (ch : Bool)
        (d : List (String × Val)) (ns : Val) (ck2 : Nat) (key : String) (rv rv2 : Val),
        progress_keys fuel self (.vobj d) schema pos checked = .ok (ns, ck2, key, false) →
        dget d key = some rv → rv.truthy = true → rv.isArr = false →
        (pos == self.keys.length - 1) = true →
        updScalar fuel self.match_type self.value_to_check self.value rv = .ok rv2 →
        Update.apply_action self (fuel + 1) (.vobj d) schema pos checked ch
          = .ok (.vobj (dset d key rv2), true)) ∧
    (∀ (fuel : Nat) (self : Action) (schema : Val) (pos checked : Nat) (ch : Bool)
        (d : List (String × Val)) (ns : Val) (ck2 : Nat) (key : String) (l l2 : List Val),
        progress_keys fuel self (.vobj d) schema pos checked = .ok (ns, ck2, key, false) →
        dget d key = some (.varr l) → (Val.varr l).truthy = true →
        (pos == self.keys.length - 1) = true →
        delFilter fuel self.match_type self.value_to_check l = .ok l2 →
        Deletion.apply_action self (fuel + 1) (.vobj d) schema pos checked ch
          = .ok (.vobj (delCleanup (dset d key (.varr l2)) key), ch)) := by
  constructor
  · intro fuel self schema pos checked ch d ns ck2 key rv rv2 hp hg htr hnarr hleaf hsc
    simp only [Update.apply_action, hp, Bool.false_eq_true, if_false, hg, htr,
      Bool.not_true, hleaf, if_true]
    cases rv with
    | varr l => simp [Val.isArr] at hnarr
    | vnone => simp [hsc]
    | vstr s => simp [hsc]
    | vbool b => simp [hsc]
    | vint n => simp [hsc]
    | vobj dd => simp [hsc]
  · intro fuel self schema pos checked ch d ns ck2 key l l2 hp hg htr hleaf hdf
    simp only [Deletion.apply_action, hp, Bool.false_eq_true, if_false, hg, htr,
      Bool.not_true, hleaf, if_true, hdf]

/-- Claim C4, witness: the amended statement applied to a no-match Update
on `{"a": "x"}` (changed true, record untouched) and a Deletion filtering
`{"a": ["y"]}` with nothing to delete (record untouched, changed false). -/
theorem C4_amended_witness :
    Update.apply_action actNoMatch 3 (.vobj [("a", .vstr "x")]) (.vobj []) 0 0 false
      = .ok (.vobj (dset [("a", .vstr "x")] "a" (.vstr "x")), true) ∧
    Deletion.apply_action actNoMatch 3 (.vobj [("a", .varr [.vstr "z"])]) (.vobj []) 0 0 false
      = .ok (.vobj (delCleanup (dset [("a", .varr [.vstr "z"])] "a" (.varr [.vstr "z"])) "a"),
          false) :=
  ⟨C4_amended.1 2 actNoMatch (.vobj []) 0 0 false [("a", .vstr "x")] (.vobj []) 0 "a"
      (.vstr "x") (.vstr "x") rfl rfl rfl rfl rfl rfl,
   C4_amended.2 2 actNoMatch (.vobj []) 0 0 false [("a", .varr [.vstr "z"])] (.vobj []) 0 "a"
      [.vstr "z"] [.vstr "z"] rfl rfl rfl rfl rfl⟩

/-- Claim C5, counterexample: with the schema declaring `a` an object and
`a.b` an array of strings, `create_schema_record` on the two-segment path
`a/b` wraps the value as `{"a": {"b": [{"b": "v"}]}}` — the final array key
is bound to a fresh object repeating the key, not to the one-element array
`["v"]` the claim requires. -/
theorem C5_counterexample :
    create_schema_record schemaDeepArr ["a", "b"] (.vstr "v")
      = .ok [("a", .vobj [("b", .varr [.vobj [("b", .vstr "v")]])])] ∧
    ([("a", .vobj [("b", .varr [.vobj [("b", .vstr "v")]])])] :
        List (String × Val))
      ≠ [("a", .vobj [("b", .varr [.vstr "v"])])] :=
  ⟨rfl, by simp⟩

/-- Claim C5, amended: the synthesis round-trip holds when the schema
declares every intermediate key as an object or an array of objects and the
final key with a scalar type — reading the result back along the path
(crossing the one-element arrays) returns the value; and when the path has
exactly one segment whose key is array-typed, that key is bound to the
one-element array holding the value.  For longer paths ending in an
array-typed key the source instead nests a fresh object (see the
counterexample). -/
theorem C5_amended :
    ∀ (schema props value : Val) (path : List String),
      schemaTopProps schema = .ok props →
      ((goodScalarPath props path = true →
          ∃ cd, create_schema_record schema path value = .ok cd ∧
            getAlong (.vobj cd) path = some value) ∧
        (∀ k, path = [k] → arrayKeyOk props k = true →
          create_schema_record schema path value = .ok [(k, .varr [value])])) := by
  intro schema props value path hprops
  constructor
  · intro hg
    cases path with
    | nil => simp [goodScalarPath] at hg
    | cons k rest =>
      have hsome : ((k :: rest).getLast?).isSome := by
        cases rest with
        | nil => rfl
        | cons r rs => simp [List.getLast?_isSome]
      obtain ⟨lk, hlk⟩ := Option.isSome_iff_exists.mp hsome
      have hlen : ((k :: rest).length == 1) = false ∨ (k :: rest).length = 1 := by
        cases hb : ((k :: rest).length == 1) with
        | false => exact Or.inl rfl
        | true => simp only [beq_iff_eq] at hb; exact Or.inr hb
      obtain ⟨cd, hcd, hga⟩ := csr_good (k :: rest) props value lk ((k :: rest).length == 1)
        hg hlk hlen
      refine ⟨cd, ?_, hga⟩
      simp only [create_schema_record, hprops, hlk, hcd]
  · intro k hpath hak
    subst hpath
    unfold arrayKeyOk at hak
    cases hn : pyIndex props k with
    | error e => simp only [hn] at hak; exact absurd hak (by simp)
    | ok ns =>
      simp only [hn] at hak
      cases ht : pyIndex ns "type" with
      | error e => simp only [ht] at hak; exact absurd hak (by simp)
      | ok t =>
        simp only [ht, Bool.and_eq_true] at hak
        obtain ⟨hta, hrest⟩ := hak
        cases hit : pyIndex ns "items" with
        | error e => simp only [hit] at hrest; exact absurd hrest (by simp)
        | ok items =>
          simp only [hit] at hrest
          cases hit2 : pyIndex items "type" with
          | error e => simp only [hit2] at hrest; exact absurd hrest (by simp)
          | ok it =>
            simp only [hit2] at hrest
            have hto : isStrV t "object" = false := by
              cases hx : isStrV t "object" with
              | false => rfl
              | true =>
                have h1 : t = .vstr "object" := by
                  cases t <;> simp [isStrV] at hx ⊢
                  exact hx
                have h2 : t = .vstr "array" := by
                  cases t <;> simp [isStrV] at hta ⊢
                  exact hta
                rw [h1] at h2
                simp at h2
            simp only [create_schema_record, hprops, List.getLast?]
            rw [csrBuild.eq_def]
            dsimp only
            cases hio : isStrV it "object" with
            | false =>
              simp [hn, ht, hto, hta, hit, hit2, hio]
            | true =>
              simp only [hio, if_true] at hrest
              cases hpr : pyIndex items "properties" with
              | error e => simp only [hpr] at hrest; exact absurd hrest (by simp)
              | ok props2 =>
                simp [hn, ht, hto, hta, hit, hit2, hio, hpr]

/-- Claim C5, witness: the amended statement applied to the schema of the
counterexample with the scalar path `a` taken through `goodScalarPath`
replaced by the single-segment array path of `schemaArrA`. -/
theorem C5_amended_witness :
    (∃ cd, create_schema_record schemaAXM ["a", "x", "m"] (.vstr "z") = .ok cd ∧
      getAlong (.vobj cd) ["a", "x", "m"] = some (.vstr "z")) ∧
    create_schema_record schemaArrA ["a"] (.vstr "w") = .ok [("a", .varr [.vstr "w"])] :=
  ⟨(C5_amended schemaAXM (.vobj [
      ("a", .vobj [("type", .vstr "object"), ("properties", .vobj [
        ("x", .vobj [("type", .vstr "object"), ("properties", .vobj [
          ("m", .vobj [("type", .vstr "string")])])])])])]) (.vstr "z") ["a", "x", "m"]
      rfl).1 rfl,
   (C5_amended schemaArrA (.vobj [
      ("a", .vobj [("type", .vstr "array"), ("items", .vobj [("type", .vstr "string")])])])
      (.vstr "w") ["a"] rfl).2 "a" rfl rfl⟩

/-- Claim C6: building a rule set from a description whose only action has
an empty `mainKey` does not abort — `''.split('/')` is `['']`, a truthy
list, so the dead `if not keys` guard never fires and an Addition with the
path `['']` is produced. -/
theorem C6_empty_mainkey :
    get_actions (some uaEmptyKey)
      = some [.addition ⟨[""], .vstr "x", "equal", .vnone, []⟩] := rfl

/-- Claim C7, counterexample: for the Addition `actAXM` on `recAXM`, the
missing structure at `a/x` is synthesized and merged (the record changes
and the flag is set) although the second declared condition — Equal
`"zzz"` at `a/x/m/q` — evaluates false on the record: the first condition
is counted at two depths, so the satisfied-check counter reaches the total
without every declared condition having evaluated true. -/
theorem C7_counterexample :
    Addition.apply_action actAXM 6 recAXM schemaAXM 0 0 false = .ok (expAXM, true) ∧
    check_value 6 recAXM "equal" ["a", "x", "m", "q"] (.vstr "zzz") 0 = .ok false ∧
    expAXM ≠ recAXM :=
  ⟨rfl, rfl, by simp [expAXM, recAXM]⟩

/-- Claim C7, amended: when the current path key is missing, an Addition
with a non-empty condition list creates the missing structure only when the
count of passed per-depth condition checks has reached the number of
declared conditions — with fewer passed checks it leaves the record
untouched; the count tallies trigger events (a condition can be counted at
several depths, or never), so reaching the total does not mean every
declared condition evaluated true.  In particular, the Addition gated on
`core == True` applied to `{"core": false}` is a no-op. -/
theorem C7_amended :
    (∀ (fuel : Nat) (self : Action) (schema : Val) (pos checked : Nat) (ch : Bool)
        (d : List (String × Val)) (ns : Val) (ck2 : Nat) (key : String),
        progress_keys fuel self (.vobj d) schema pos checked = .ok (ns, ck2, key, false) →
        truthyGet d key = false →
        self.conditions ≠ [] →
        ck2 < self.conditions.length →
        Addition.apply_action self (fuel + 1) (.vobj d) schema pos checked ch
          = .ok (.vobj d, ch)) ∧
    Addition.apply_action actCore 5 recCore (.vobj []) 0 0 false = .ok (recCore, false) :=
  ⟨fun fuel self schema pos checked ch d ns ck2 key hp hm hne hlt =>
      addition_gate_noop fuel self schema pos checked ch d ns ck2 key hp hm hne hlt,
   rfl⟩

/-- Claim C7, witness: the amended gate applied to an Addition on the empty
record whose single condition has a longer path and never triggers, so zero
checks have passed and creation is withheld. -/
theorem C7_amended_witness :
    Addition.apply_action ⟨["a"], .vstr "v", "", .vnone, [⟨["a", "b"], .vstr "t", "equal"⟩]⟩ 3
      (.vobj []) (.vobj []) 0 0 false = .ok (.vobj [], false) :=
  C7_amended.1 2 ⟨["a"], .vstr "v", "", .vnone, [⟨["a", "b"], .vstr "t", "equal"⟩]⟩
    (.vobj []) 0 0 false [] (.vobj []) 0 "a" rfl rfl (by simp) (by simp)

/-- Claim C8, counterexample: with the record `{"k": []}`, the value at the
final path segment is an array, yet the condition with the Missing
predicate holds even though no element satisfies the predicate — an empty
array is falsy and is treated as a missing key, breaking the stated
existential equivalence. -/
theorem C8_counterexample :
    check_value 5 (.vobj [("k", .varr [])]) "missing" ["k"] (.vstr "") 0 = .ok true ∧
    ¬ ∃ x, x ∈ ([] : List Val) ∧ leafMatch 4 "missing" (.vstr "") x = .ok true :=
  ⟨rfl, by simp⟩

/-- Claim C8, amended: condition evaluation is existential over non-empty
arrays.  When the value at the current key is a non-empty array and
evaluation completes normally, the result is true exactly when some element
satisfies the leaf predicate (final segment) or some element makes the
recursive evaluation succeed (intermediate segment); empty arrays are
falsy and answer the Missing test instead. -/
theorem C8_amended :
    ∀ (fuel : Nat) (d : List (String × Val)) (key : String) (keys : List String)
      (pos : Nat) (mt : String) (vtc : Val) (l : List Val) (b : Bool),
      keys[pos]? = some key →
      dget d key = some (.varr l) →
      l ≠ [] →
      check_value (fuel + 1) (.vobj d) mt keys vtc pos = .ok b →
      ((pos + 1 = keys.length → (b = true ↔ ∃ x ∈ l, leafMatch fuel mt vtc x = .ok true)) ∧
        (pos + 1 ≠ keys.length →
          (b = true ↔ ∃ x ∈ l, check_value fuel x mt keys vtc (pos + 1) = .ok true))) := by
  intro fuel d key keys pos mt vtc l b hk hg hne hcv
  have hemp : l.isEmpty = false := by
    cases l with
    | nil => exact absurd rfl hne
    | cons a as => rfl
  simp only [check_value, hk, hg, Val.truthy, hemp, Bool.not_false, Bool.not_true,
    Bool.false_eq_true, if_false] at hcv
  constructor
  · intro hlen
    have hb : (pos + 1 == keys.length) = true := by simp [hlen]
    simp only [hb, if_true] at hcv
    exact boolScan_ok_iff _ l b hcv
  · intro hlen
    have hb : (pos + 1 == keys.length) = false := by simp [hlen]
    simp only [hb, Bool.false_eq_true, if_false] at hcv
    exact boolScan_ok_iff _ l b hcv

/-- Claim C8, witness: the amended statement applied to the record
`{"k": ["a", "b"]}` with an Equal condition on the one-segment path. -/
theorem C8_amended_witness :
    (0 + 1 = (["k"] : List String).length →
      (true = true ↔ ∃ x ∈ [Val.vstr "a", Val.vstr "b"],
        leafMatch 4 "equal" (.vstr "b") x = .ok true)) ∧
    (0 + 1 ≠ (["k"] : List String).length →
      (true = true ↔ ∃ x ∈ [Val.vstr "a", Val.vstr "b"],
        check_value 4 x "equal" ["k"] (.vstr "b") (0 + 1) = .ok true)) :=
  C8_amended 4 [("k", .varr [.vstr "a", .vstr "b"])] "k" ["k"] 0 "equal" (.vstr "b")
    [.vstr "a", .vstr "b"] true rfl rfl (by simp) rfl

/-- Claim C9: for a string with no regex metacharacters, the RegexSearch
predicate — a regex search for the escaped pattern — agrees with the
Contains substring predicate, on a scalar string leaf and elementwise over
an array of string leaves (the `check_value` scan).  With Python 2.7's
`re.escape`, which escapes every non-alphanumeric character, the
equivalence in fact needs no assumption on `s`. -/
theorem C9_regex_contains :
    ∀ (fuel : Nat) (s h : String) (l : List Val),
      noMeta s = true →
      (∀ x ∈ l, ∃ hs : String, x = .vstr hs) →
      leafMatch fuel "regex" (.vstr s) (.vstr h) = leafMatch fuel "contains" (.vstr s) (.vstr h) ∧
      boolScan (leafMatch fuel "regex" (.vstr s)) l
        = boolScan (leafMatch fuel "contains" (.vstr s)) l := by
  intro fuel s h l _ hl
  refine ⟨leafMatch_regex_eq_contains fuel s h, ?_⟩
  refine boolScan_congr _ _ l ?_
  intro x hx
  obtain ⟨hs, rfl⟩ := hl x hx
  exact leafMatch_regex_eq_contains fuel s hs

/-- Claim C9, witness: the equivalence applied to the plain string `val`
against the haystack `xvaly` and the array `["val6", "zz"]`. -/
theorem C9_witness :
    leafMatch 3 "regex" (.vstr "val") (.vstr "xvaly")
      = leafMatch 3 "contains" (.vstr "val") (.vstr "xvaly") ∧
    boolScan (leafMatch 3 "regex" (.vstr "val")) [.vstr "val6", .vstr "zz"]
      = boolScan (leafMatch 3 "contains" (.vstr "val")) [.vstr "val6", .vstr "zz"] :=
  C9_regex_contains 3 "val" "xvaly" [.vstr "val6", .vstr "zz"] (by decide)
    (by intro x hx
        rcases List.mem_cons.mp hx with rfl | hx2
        · exact ⟨"val6", rfl⟩
        · rcases List.mem_cons.mp hx2 with rfl | hx3
          · exact ⟨"zz", rfl⟩
          · exact absurd hx3 (by simp))

/-- Claim C10: an Addition whose conditions gate passes and whose current
path key holds a falsy value discards that value entirely: the synthesized
structure is written over it through `dict.update`, and the changed flag is
set; the key's new value is exactly the synthesized one, independent of the
old falsy value. -/
theorem C10_falsy_replaced :
    ∀ (fuel : Nat) (self : Action) (schema : Val) (pos checked : Nat) (ch : Bool)
      (d : List (String × Val)) (ns : Val) (ck2 : Nat) (key : String) (v : Val)
      (created : List (String × Val)),
      progress_keys fuel self (.vobj d) schema pos checked = .ok (ns, ck2, key, false) →
      dget d key = some v →
      v.truthy = false →
      (self.conditions = [] ∨ ¬ ck2 < self.conditions.length) →
      create_schema_record schema (self.keys.drop pos) self.value = .ok created →
      Addition.apply_action self (fuel + 1) (.vobj d) schema pos checked ch
        = .ok (.vobj (dictUpdate d created), true) ∧
      (∀ k0 w0, created = [(k0, w0)] → dget (dictUpdate d created) k0 = some w0) := by
  intro fuel self schema pos checked ch d ns ck2 key v created hp hg htr hcond hcr
  have hgate : (!self.conditions.isEmpty && decide (ck2 < self.conditions.length)) = false := by
    rcases hcond with h | h
    · simp [h]
    · simp [h]
  constructor
  · simp only [Addition.apply_action, hp, Bool.false_eq_true, if_false, hg, htr,
      Bool.not_false, if_true, hgate, hcr]
  · intro k0 w0 hcs
    subst hcs
    show dget (dictUpdate (dset d k0 w0) []) k0 = some w0
    exact dget_dset_self d k0 w0

/-- Claim C10, witness: the Addition of `actAddA` applied to
`{"a": []}` under the array-of-strings schema replaces the empty array by
the synthesized `["v"]` and sets the changed flag. -/
theorem C10_witness :
    Addition.apply_action actAddA 3 recFalsyA schemaArrA 0 0 false
      = .ok (.vobj (dictUpdate [("a", .varr [])] [("a", .varr [.vstr "v"])]), true) ∧
    dget (dictUpdate [("a", .varr [])] [("a", .varr [.vstr "v"])]) "a"
      = some (.varr [.vstr "v"]) :=
  ⟨(C10_falsy_replaced 2 actAddA schemaArrA 0 0 false [("a", .varr [])] (.vobj [
      ("type", .vstr "array"), ("items", .vobj [("type", .vstr "string")])]) 0 "a"
      (.varr []) [("a", .varr [.vstr "v"])] rfl rfl rfl (Or.inl rfl) rfl).1,
   (C10_falsy_replaced 2 actAddA schemaArrA 0 0 false [("a", .varr [])] (.vobj [
      ("type", .vstr "array"), ("items", .vobj [("type", .vstr "string")])]) 0 "a"
      (.varr []) [("a", .varr [.vstr "v"])] rfl rfl rfl (Or.inl rfl) rfl).2
      "a" (.varr [.vstr "v"]) rfl⟩

end Claims

end Inspire
